import Mathlib

/-!
Verification development for the Chakra recursive-agent system.

The repository snapshot contains the React frontend
(src/src/components/chatbot/ChatBot.tsx, the DocumentAssistant and
ProgressBar components) together with the README and architecture
documents. The Python backend (orchestrator.py, evaluation/evaluator.py,
rag/retriever.py, agents/smriti.py, api.py) is referenced by the
documents but absent from the snapshot, so the orchestrator loop, the
scorer, the retriever and the memory store are modelled from the spec;
each such definition carries a doc comment saying so. Frontend behaviour
(the ProgressBar width clamp, the streaming-event dispatch and the
empty-input guards) is embedded directly from the TSX source.
-/

namespace Chakra

/-! ## Frontend: ProgressBar -/

/-- Embeds the fill width of the ProgressBar component
(src/unnamed/part_002, line 13): the inline style is
width = Math.min(100, Math.max(0, progress)) percent. -/
def progressFillWidth (progress : ℚ) : ℚ :=
  min 100 (max 0 progress)

/-! ## Frontend: streaming-event dispatch in handleGenerate -/

/-- The seven streaming event kinds named by the spec for the streaming
variant of the processing endpoint (spec, section 6, HTTP boundary). -/
def specStreamKinds : List String :=
  ["token", "first_response", "improving_started", "improved",
   "iteration_complete", "final", "error"]

/-- Embeds the dispatch on data.type inside handleGenerate
(src/src/components/chatbot/ChatBot.tsx, lines 182-307): true exactly when
the client has a branch processing an event of this kind. The second branch
of the source tests data.type === "first_response" ||
data.type === "first_response_complete"; events of any other kind fall
through with no effect. -/
def clientHandles (t : String) : Bool :=
  if t = "token" then true
  else if t = "first_response" || t = "first_response_complete" then true
  else if t = "improving_started" then true
  else if t = "improved" then true
  else if t = "iteration_complete" then true
  else if t = "final" then true
  else if t = "error" then true
  else false

/-- Modelled from the spec: the streaming variant of the processing
endpoint lives in backend api.py, which is absent from the snapshot; the
spec (section 6) lists its event kinds, so an emitted event is one of
these seven constructors. -/
inductive StreamEvent where
  | token : String → StreamEvent
  | firstResponse : String → StreamEvent
  | improvingStarted : StreamEvent
  | improved : Nat → String → StreamEvent
  | iterationComplete : Nat → String → ℚ → ℚ → StreamEvent
  | final : String → ℚ → Nat → StreamEvent
  | error : String → StreamEvent

/-- The wire kind tag of a modelled stream event. -/
def StreamEvent.kind : StreamEvent → String
  | .token _ => "token"
  | .firstResponse _ => "first_response"
  | .improvingStarted => "improving_started"
  | .improved _ _ => "improved"
  | .iterationComplete _ _ _ _ => "iteration_complete"
  | .final _ _ _ => "final"
  | .error _ => "error"

/-! ## Frontend: input guards -/

/-- Character-level embedding of the JavaScript String.prototype.trim used
by the guards: drop whitespace from both ends. -/
def jsTrim (s : String) : String :=
  ⟨((s.data.dropWhile fun c => c.isWhitespace).reverse.dropWhile
      fun c => c.isWhitespace).reverse⟩

/-- The request body handleGenerate posts to /process-stream
(src/src/components/chatbot/ChatBot.tsx, lines 141-146). -/
structure ProcessRequest where
  task : String
  context : Option String
  use_rag : Bool
  is_code : Bool
deriving DecidableEq

/-- Embeds the entry of handleGenerate
(src/src/components/chatbot/ChatBot.tsx, lines 111-147): the guard
if (!input.trim()) return; aborts before any request is issued, and the
truthiness test of a JavaScript string is emptiness of the trimmed text;
otherwise the body posted to /process-stream is
(task: input, context: null, use_rag: useRAG, is_code: false). -/
def handleGenerateRequest (input : String) (useRAG : Bool) : Option ProcessRequest :=
  if jsTrim input = "" then none
  else some ⟨input, none, useRAG, false⟩

/-- Embeds the entry guard of DocumentAssistant.handleAsk
(src/unnamed/part_001, lines 112-113):
if (!question.trim() || uploadedFiles.length === 0) return; otherwise the
question is posted to /query-document. -/
def handleAskRequest (question : String) (numUploaded : Nat) : Option String :=
  if jsTrim question = "" || numUploaded = 0 then none
  else some question

/-! ## Memory store (modelled from the spec) -/

/-- Payload of a persisted memory record: stored solution text, score and
update time. Modelled from the spec (section 3, MemoryRecord): backend
agents/smriti.py is absent from the snapshot. -/
structure MemoryEntry where
  solution : String
  score : ℚ
  updatedAt : Nat
deriving DecidableEq

/-- Modelled from the spec (sections 4.3 and 6): the memory store is a
durable key-indexed table keyed by task text holding at most one record
per task, modelled as a map from task text to an optional record. -/
def MemoryDB : Type := String → Option MemoryEntry

/-- The store before any record is written. -/
def MemoryDB.empty : MemoryDB := fun _ => none

/-- Modelled from the spec (section 4.3, store), backend agents/smriti.py
absent from the snapshot: insert when no record exists for the task text;
when one exists, overwrite its solution, score and update time only when
the new score strictly exceeds the stored score, and otherwise leave the
record untouched. -/
def MemoryDB.store (db : MemoryDB) (t s : String) (sc : ℚ) (now : Nat) : MemoryDB :=
  fun q =>
    if q = t then
      match db t with
      | none => some ⟨s, sc, now⟩
      | some r => if r.score < sc then some ⟨s, sc, now⟩ else some r
    else db q

/-- Modelled from the spec (sections 4.3 and 4.5): the orchestrator call
site invokes store only for an iteration whose score strictly exceeds 0.6;
lower scores are discarded before reaching the store. -/
def storeIfQualifying (db : MemoryDB) (t s : String) (sc : ℚ) (now : Nat) : MemoryDB :=
  if 3/5 < sc then db.store t s sc now else db

/-- One orchestrator store call: task text, solution text, score, time. -/
structure StoreCall where
  task : String
  solution : String
  score : ℚ
  time : Nat

/-- The store state after a sequence of orchestrator store calls starting
from the empty store. -/
def runQualifyingStores (calls : List StoreCall) : MemoryDB :=
  calls.foldl (fun db c => storeIfQualifying db c.task c.solution c.score c.time)
    MemoryDB.empty

/-- Every record in the store has score above the bound. -/
def MemoryDB.allAbove (db : MemoryDB) (bound : ℚ) : Prop :=
  ∀ t r, db t = some r → bound < r.score

/-! ## Scorer (modelled from the spec) -/

/-- Scoring mode, selected by the is_code and use_rag flags of the task. -/
inductive ScoreMode where
  | code
  | grounded
deriving DecidableEq

/-- Clamp a rational to the unit interval. -/
def clamp01 (x : ℚ) : ℚ := min 1 (max 0 x)

/-- Modelled from the spec (section 4.2): the fixed dimension-to-weight
mapping of each scoring mode; backend evaluation/evaluator.py is absent
from the snapshot. -/
def modeWeights : ScoreMode → List (String × ℚ)
  | .code => [("correctness", 2/5), ("quality", 3/10), ("completeness", 3/10)]
  | .grounded => [("grounding", 1/2), ("clarity", 3/10), ("completeness", 1/5)]

/-- A structured score: named dimension values plus the weighted total. -/
structure ScoreResult where
  dims : List (String × ℚ)
  total : ℚ
deriving DecidableEq

/-- Modelled from the spec (section 4.2, score), backend
evaluation/evaluator.py absent from the snapshot: each dimension value is
produced by a pluggable sub-scorer; the result maps every dimension of the
mode weight set to its value and totals the weighted sum, clamped to the
unit interval. -/
def runScorer (mode : ScoreMode) (sub : String → ℚ) : ScoreResult :=
  let ws := modeWeights mode
  { dims := ws.map fun p => (p.1, sub p.1)
    total := clamp01 ((ws.map fun p => p.2 * sub p.1).sum) }

/-! ## Retriever (modelled from the spec) -/

/-- A document chunk held by the retriever index: chunk text, source
identifier, position. Modelled from the spec (section 3, DocumentChunk). -/
structure Chunk where
  text : String
  source : String
  position : Nat
deriving DecidableEq

/-- Modelled from the spec (section 4.1): tokenize a text into its set of
lowercase words, character-level so that concrete instances evaluate. -/
def wordSet (s : String) : List (List Char) :=
  ((List.splitOnP (fun c => c.isWhitespace) (s.data.map Char.toLower)).filter
    fun w => w ≠ []).dedup

/-- Modelled from the spec (section 4.1): the overlap score of a chunk is
the number of query words that occur in the chunk word set. -/
def overlapCount (queryWords : List (List Char)) (c : Chunk) : Nat :=
  (queryWords.filter fun w => w ∈ wordSet c.text).length

/-- Ranking order on scored index entries (insertion index, chunk, score):
higher score first, ties broken by smaller insertion index. -/
def rankLE (a b : Nat × Chunk × Nat) : Prop :=
  b.2.2 < a.2.2 ∨ (a.2.2 = b.2.2 ∧ a.1 ≤ b.1)

instance : DecidableRel rankLE := fun a b => by
  unfold rankLE; infer_instance

instance : IsTotal (Nat × Chunk × Nat) rankLE where
  total a b := by
    unfold rankLE
    rcases lt_trichotomy a.2.2 b.2.2 with h | h | h
    · exact Or.inr (Or.inl h)
    · rcases Nat.le_total a.1 b.1 with h1 | h1
      · exact Or.inl (Or.inr ⟨h, h1⟩)
      · exact Or.inr (Or.inr ⟨h.symm, h1⟩)
    · exact Or.inl (Or.inl h)

instance : IsTrans (Nat × Chunk × Nat) rankLE where
  trans a b c hab hbc := by
    unfold rankLE at *
    rcases hab with h1 | ⟨h1, h1i⟩
    · rcases hbc with h2 | ⟨h2, _⟩
      · exact Or.inl (h2.trans h1)
      · exact Or.inl (h2 ▸ h1)
    · rcases hbc with h2 | ⟨h2, h2i⟩
      · exact Or.inl (h1 ▸ h2)
      · exact Or.inr ⟨h1.trans h2, h1i.trans h2i⟩

/-- Modelled from the spec (section 4.1, query), backend rag/retriever.py
absent from the snapshot: score every indexed chunk by word overlap with
the query, keep the chunks with nonzero overlap, order by descending score
with ties broken by original insertion order, and keep the first k. The
ranked form retains the insertion index and the score. -/
def scoredIndex (index : List Chunk) (text : String) : List (Nat × Chunk × Nat) :=
  index.enum.map fun p => (p.1, p.2, overlapCount (wordSet text) p.2)

/-- The scored entries with nonzero overlap, still in insertion order. -/
def positiveScored (index : List Chunk) (text : String) : List (Nat × Chunk × Nat) :=
  (scoredIndex index text).filter fun e => 0 < e.2.2

/-- The ranked result of a query: the positively scored entries sorted by
the ranking order, cut to the first k. -/
def queryRanked (index : List Chunk) (text : String) (k : Nat) :
    List (Nat × Chunk × Nat) :=
  (List.insertionSort rankLE (positiveScored index text)).take k

/-- The chunks returned by a retriever query, in rank order. -/
def queryChunks (index : List Chunk) (text : String) (k : Nat) : List Chunk :=
  (queryRanked index text k).map fun e => e.2.1

/-! ## Orchestrator (modelled from the spec) -/

/-- What the prompt-driven steps and the scorer would produce at one
iteration of a synthetic run: generated text, critique, improved text and
score. Abstracts the model-backed steps of spec section 4.4, whose output
the spec treats as externally given. -/
structure StepOutcome where
  generated : String
  critique : String
  improved : String
  score : ℚ
deriving DecidableEq

/-- One recorded loop pass (spec section 3, Iteration): 1-based iteration
number, generated solution text, critique text, improved solution text and
score. -/
structure IterationRec where
  iteration : Nat
  generated : String
  critique : String
  improved : String
  score : ℚ
deriving DecidableEq

/-- Orchestrator configuration (spec section 4.5): iteration bound and
plateau threshold, with the documented defaults. -/
structure OrchConfig where
  max_iterations : Nat := 3
  min_improvement : ℚ := 1/20

/-- The record produced at iteration i of a synthetic run. -/
def iterationRecAt (steps : Nat → StepOutcome) (i : Nat) : IterationRec :=
  ⟨i, (steps i).generated, (steps i).critique, (steps i).improved, (steps i).score⟩

/-- Modelled from the spec (section 4.5), backend orchestrator.py absent
from the snapshot: run the loop from iteration i with the given remaining
iteration budget, carrying the score of the previous iteration. An
iteration is always recorded; the loop then stops when the budget is
exhausted, or stops after recording the iteration when its score improves
on the previous score by less than min_improvement. -/
def loopFrom (steps : Nat → StepOutcome) (minImp : ℚ) :
    Nat → Nat → Option ℚ → List IterationRec
  | 0, _, _ => []
  | fuel + 1, i, prev =>
    let r := iterationRecAt steps i
    match prev with
    | some p =>
      if r.score - p < minImp then [r]
      else r :: loopFrom steps minImp fuel (i + 1) (some r.score)
    | none => r :: loopFrom steps minImp fuel (i + 1) (some r.score)

/-- The full iteration sequence of one task execution: the loop starts at
iteration 1 with no previous score and a budget of max_iterations. -/
def runLoop (cfg : OrchConfig) (steps : Nat → StepOutcome) : List IterationRec :=
  loopFrom steps cfg.min_improvement cfg.max_iterations 1 none

/-- Modelled from the spec (section 4.5, Done): the highest-scoring
recorded iteration, the earliest one when scores tie. -/
def bestIteration (iters : List IterationRec) : Option IterationRec :=
  match iters with
  | [] => none
  | r :: rs => some (rs.foldl (fun b x => if b.score < x.score then x else b) r)

/-- Final assembled output for a task (spec section 3, Result). -/
structure ResultRec where
  task : String
  final_solution : String
  final_score : ℚ
  iterations : List IterationRec
  total_iterations : Nat
  used_rag : Bool
  rag_chunks : Option (List Chunk)
deriving DecidableEq

/-- Modelled from the spec (sections 3 and 4.5): on Done the Result
carries the improved text and score of the best-scoring iteration. -/
def assembleResult (task : String) (usedRag : Bool) (chunks : Option (List Chunk))
    (iters : List IterationRec) : ResultRec :=
  { task := task
    final_solution := ((bestIteration iters).map fun r => r.improved).getD ""
    final_score := ((bestIteration iters).map fun r => r.score).getD 0
    iterations := iters
    total_iterations := iters.length
    used_rag := usedRag
    rag_chunks := chunks }

/-- Modelled from the spec (section 2, control flow): the pipeline runs
only for a submitted request; a rejected submission reaches neither the
loop nor the memory store. For a submitted request the loop runs and each
recorded iteration is offered to the memory store through the qualifying
call site. -/
def processSubmission (req : Option ProcessRequest) (cfg : OrchConfig)
    (steps : Nat → StepOutcome) (db : MemoryDB) (now : Nat) :
    List IterationRec × MemoryDB :=
  match req with
  | none => ([], db)
  | some r =>
    let iters := runLoop cfg steps
    (iters, iters.foldl (fun d it => storeIfQualifying d r.task it.improved it.score now) db)

/-! ## Concrete fixtures used by the witness statements -/

/-- A two-chunk retriever index: the query words of "a b" overlap the
first chunk in one word and the second in two. -/
def exampleIndex : List Chunk :=
  [⟨"b c", "doc", 0⟩, ⟨"a b", "doc", 1⟩]

/-- The iteration sequence with scores 0.5, 0.8, 0.65 from the spec
best-result test (section 8). -/
def exampleIterations : List IterationRec :=
  [⟨1, "g1", "c1", "a", 1/2⟩, ⟨2, "g2", "c2", "b", 4/5⟩, ⟨3, "g3", "c3", "c", 13/20⟩]

/-- A synthetic step sequence whose second score exceeds the first by
0.01, below the 0.05 plateau threshold. -/
def stepsPlateau : Nat → StepOutcome :=
  fun i => ⟨"g", "c", "s", if i ≤ 1 then 1/2 else 51/100⟩

/-- A single qualifying store call with score 0.7. -/
def exampleCalls : List StoreCall :=
  [⟨"a", "s", 7/10, 0⟩]

end Chakra

namespace Chakra

/-! ## Helper lemmas -/

/-- The loop records at most as many iterations as its remaining budget. -/
theorem loopFrom_length_le (steps : Nat → StepOutcome) (minImp : ℚ) :
    ∀ (fuel i : Nat) (prev : Option ℚ),
      (loopFrom steps minImp fuel i prev).length ≤ fuel := by
  intro fuel
  induction fuel with
  | zero => intro i prev; simp [loopFrom]
  | succ n ih =>
    intro i prev
    cases prev with
    | none =>
      simp only [loopFrom, List.length_cons]
      exact Nat.succ_le_succ (ih (i + 1) _)
    | some p =>
      by_cases h : (iterationRecAt steps i).score - p < minImp
      · simp [loopFrom, h]
      · simp only [loopFrom, if_neg h, List.length_cons]
        exact Nat.succ_le_succ (ih (i + 1) _)

/-- The fold inside bestIteration returns the start element or a list
element, bounds the start element, and bounds every list element. -/
theorem bestFold_spec (rs : List IterationRec) (b : IterationRec) :
    (rs.foldl (fun u x => if u.score < x.score then x else u) b = b
      ∨ rs.foldl (fun u x => if u.score < x.score then x else u) b ∈ rs)
    ∧ b.score ≤ (rs.foldl (fun u x => if u.score < x.score then x else u) b).score
    ∧ ∀ x ∈ rs, x.score ≤ (rs.foldl (fun u x => if u.score < x.score then x else u) b).score := by
  induction rs generalizing b with
  | nil => simp
  | cons a l ih =>
    simp only [List.foldl_cons]
    by_cases hba : b.score < a.score
    · rw [if_pos hba]
      obtain ⟨hmem, hstart, hall⟩ := ih a
      refine ⟨?_, le_of_lt (lt_of_lt_of_le hba hstart), ?_⟩
      · rcases hmem with h | h
        · exact Or.inr (by rw [h]; exact List.mem_cons_self a l)
        · exact Or.inr (List.mem_cons_of_mem a h)
      · intro x hx
        rcases List.mem_cons.mp hx with rfl | hx
        · exact hstart
        · exact hall x hx
    · rw [if_neg hba]
      obtain ⟨hmem, hstart, hall⟩ := ih b
      refine ⟨?_, hstart, ?_⟩
      · rcases hmem with h | h
        · exact Or.inl h
        · exact Or.inr (List.mem_cons_of_mem a h)
      · intro x hx
        rcases List.mem_cons.mp hx with rfl | hx
        · exact le_trans (le_of_not_lt hba) hstart
        · exact hall x hx

/-- The qualifying call site preserves the threshold invariant. -/
theorem storeIfQualifying_allAbove {db : MemoryDB}
    (h : db.allAbove (3/5)) (t s : String) (sc : ℚ) (now : Nat) :
    (storeIfQualifying db t s sc now).allAbove (3/5) := by
  unfold storeIfQualifying
  by_cases hsc : (3 : ℚ)/5 < sc
  · rw [if_pos hsc]
    intro q r hr
    by_cases hq : q = t
    · subst hq
      cases hdb : db q with
      | none =>
        simp [MemoryDB.store, hdb] at hr
        rw [← hr]
        exact hsc
      | some r0 =>
        by_cases h0 : r0.score < sc
        · simp [MemoryDB.store, hdb, h0] at hr
          rw [← hr]
          exact hsc
        · simp [MemoryDB.store, hdb, h0] at hr
          rw [← hr]
          exact h q r0 hdb
    · simp only [MemoryDB.store, if_neg hq] at hr
      exact h q r hr
  · rw [if_neg hsc]
    exact h

/-- Folding qualifying store calls preserves the threshold invariant. -/
theorem foldl_storeIfQualifying_allAbove (calls : List StoreCall) :
    ∀ db : MemoryDB, db.allAbove (3/5) →
      (calls.foldl
        (fun d c => storeIfQualifying d c.task c.solution c.score c.time)
        db).allAbove (3/5) := by
  induction calls with
  | nil => intro db h; exact h
  | cons c l ih =>
    intro db h
    exact ih _ (storeIfQualifying_allAbove h c.task c.solution c.score c.time)

/-- The second component of an enumerated entry is a list element. -/
theorem snd_mem_of_mem_enum {α : Type} {l : List α} {p : Nat × α}
    (hp : p ∈ l.enum) : p.2 ∈ l := by
  rw [← List.enum_map_snd l]
  exact List.mem_map_of_mem Prod.snd hp

/-- Unfolding step of the loop at the first iteration. -/
theorem loopFrom_succ_none (steps : Nat → StepOutcome) (minImp : ℚ)
    (fuel i : Nat) :
    loopFrom steps minImp (fuel + 1) i none
      = iterationRecAt steps i
        :: loopFrom steps minImp fuel (i + 1)
            (some (iterationRecAt steps i).score) := rfl

/-- Unfolding step of the loop at a plateau: the iteration is recorded and
the loop stops. -/
theorem loopFrom_succ_plateau (steps : Nat → StepOutcome) (minImp : ℚ)
    (fuel i : Nat) (p : ℚ) (h : (iterationRecAt steps i).score - p < minImp) :
    loopFrom steps minImp (fuel + 1) i (some p) = [iterationRecAt steps i] := by
  simp [loopFrom, h]

/-! ## Claim theorems -/

/-- C10: for every numeric progress input, including negative values and
values above 100, the ProgressBar renders a fill width of exactly
min(100, max(0, progress)) percent, so the displayed width always lies in
the interval from 0 to 100. -/
theorem progress_width_clamped (p : ℚ) :
    progressFillWidth p = min 100 (max 0 p)
    ∧ 0 ≤ progressFillWidth p ∧ progressFillWidth p ≤ 100 :=
  ⟨rfl, le_min (by norm_num) (le_max_left 0 p), min_le_left 100 (max 0 p)⟩

/-- C7: calling store twice in succession with the same task text,
solution and score leaves the memory store in the same state as calling it
once, whatever update times the two calls carry. -/
theorem memory_store_idempotent (db : MemoryDB) (t s : String) (sc : ℚ)
    (now now2 : Nat) :
    (db.store t s sc now).store t s sc now2 = db.store t s sc now := by
  funext q
  by_cases hq : q = t
  · subst hq
    cases hdb : db q with
    | none => simp [MemoryDB.store, hdb, lt_irrefl]
    | some r =>
      by_cases hr : r.score < sc
      · simp [MemoryDB.store, hdb, hr, lt_irrefl]
      · simp [MemoryDB.store, hdb, hr]
  · simp [MemoryDB.store, hq]

/-- C3: when a record for the task text exists with score x, store
overwrites its solution, score and update time only when the new score
strictly exceeds x, and otherwise leaves the whole store unchanged. -/
theorem memory_store_monotone (db : MemoryDB) (t s : String) (y : ℚ)
    (now : Nat) (r : MemoryEntry) (h : db t = some r) :
    (¬ r.score < y → db.store t s y now = db)
    ∧ (r.score < y → (db.store t s y now) t = some ⟨s, y, now⟩) := by
  constructor
  · intro hy
    funext q
    by_cases hq : q = t
    · subst hq
      simp [MemoryDB.store, h, hy]
    · simp [MemoryDB.store, hq]
  · intro hy
    simp [MemoryDB.store, h, hy]

/-- C3 witness: after store(t, s1, 0.7) then store(t, s2, 0.6) from the
empty store, the record for t still holds (s1, 0.7). -/
theorem memory_store_monotone_example :
    (MemoryDB.empty.store "t" "s1" (7/10) 0) "t" = some ⟨"s1", 7/10, 0⟩
    ∧ ((MemoryDB.empty.store "t" "s1" (7/10) 0).store "t" "s2" (3/5) 1) "t"
        = some ⟨"s1", 7/10, 0⟩ := by
  have h1 : (MemoryDB.empty.store "t" "s1" (7/10) 0) "t" = some ⟨"s1", 7/10, 0⟩ := by
    simp [MemoryDB.store, MemoryDB.empty]
  have h2 := (memory_store_monotone (MemoryDB.empty.store "t" "s1" (7/10) 0)
    "t" "s2" (3/5) 1 ⟨"s1", 7/10, 0⟩ h1).1 (by norm_num)
  exact ⟨h1, by rw [h2]; exact h1⟩

/-- C6: every record ever present in the memory store has score strictly
greater than 0.6. Starting from the empty store, any sequence of
orchestrator store calls goes through the qualifying call site, which
discards scores at or below the threshold, so every reachable store state
satisfies the invariant. -/
theorem memory_threshold_invariant (calls : List StoreCall) (t : String)
    (r : MemoryEntry) (h : runQualifyingStores calls t = some r) :
    3/5 < r.score := by
  have hempty : MemoryDB.empty.allAbove (3/5) := by
    intro q e he
    simp [MemoryDB.empty] at he
  exact foldl_storeIfQualifying_allAbove calls MemoryDB.empty hempty t r h

/-- C6 witness: a qualifying call with score 0.7 stores a record, and the
invariant applies to it. -/
theorem memory_threshold_invariant_example :
    runQualifyingStores exampleCalls "a" = some ⟨"s", 7/10, 0⟩
    ∧ (3 : ℚ)/5 < (MemoryEntry.mk "s" (7/10) 0).score := by
  have h : runQualifyingStores exampleCalls "a" = some ⟨"s", 7/10, 0⟩ := by
    norm_num [runQualifyingStores, exampleCalls, storeIfQualifying,
      MemoryDB.store, MemoryDB.empty]
  exact ⟨h, memory_threshold_invariant exampleCalls "a" ⟨"s", 7/10, 0⟩ h⟩

/-- C9: a submission whose task text is empty or whitespace-only, that is
whose trimmed text is empty, is rejected by the entry guard before any
request is issued, so the orchestration loop never runs and neither an
iteration nor a memory write occurs; the DocumentAssistant guard rejects
the same inputs. -/
theorem empty_task_rejected (input : String) (useRAG : Bool)
    (numUploaded : Nat) (cfg : OrchConfig) (steps : Nat → StepOutcome)
    (db : MemoryDB) (now : Nat) (h : jsTrim input = "") :
    handleGenerateRequest input useRAG = none
    ∧ handleAskRequest input numUploaded = none
    ∧ processSubmission (handleGenerateRequest input useRAG) cfg steps db now
        = ([], db) := by
  have h1 : handleGenerateRequest input useRAG = none := by
    simp [handleGenerateRequest, h]
  exact ⟨h1, by simp [handleAskRequest, h], by simp [processSubmission, h1]⟩

/-- C9 witness: the whitespace-only input of two spaces is rejected with
no request, no iterations and no memory write. -/
theorem empty_task_rejected_example :
    handleGenerateRequest "  " false = none
    ∧ handleAskRequest "  " 1 = none
    ∧ processSubmission (handleGenerateRequest "  " false) ⟨3, 1/20⟩
        stepsPlateau MemoryDB.empty 0 = ([], MemoryDB.empty) := by
  have h : jsTrim "  " = "" := by decide
  exact empty_task_rejected "  " false 1 ⟨3, 1/20⟩ stepsPlateau
    MemoryDB.empty 0 h

/-- C8 counterexample: the claim that the consuming client processes
events of exactly the seven documented kinds fails on the source at the
concrete kind first_response_complete, which the client dispatch also
processes (ChatBot.tsx, line 193) although it is not among the seven. -/
theorem streaming_kinds_exactness_fails :
    clientHandles "first_response_complete" = true
    ∧ "first_response_complete" ∉ specStreamKinds
    ∧ ¬ (∀ t : String, clientHandles t = true ↔ t ∈ specStreamKinds) := by
  refine ⟨by decide, by decide, fun hall => ?_⟩
  exact absurd ((hall "first_response_complete").mp (by decide)) (by decide)

/-- C8 amended: the client processes exactly the seven documented kinds
plus the extra kind first_response_complete, which its dispatch accepts in
the same branch as first_response; and every event of the spec-modelled
streaming emitter has one of the seven documented kinds. -/
theorem streaming_kinds_with_alias :
    (∀ t : String, clientHandles t = true ↔
        (t ∈ specStreamKinds ∨ t = "first_response_complete"))
    ∧ (∀ e : StreamEvent, e.kind ∈ specStreamKinds) := by
  constructor
  · intro t
    simp only [clientHandles, specStreamKinds, List.mem_cons,
      List.not_mem_nil, or_false, Bool.or_eq_true, decide_eq_true_eq]
    split_ifs with h1 h2 h3 h4 h5 h6 h7 <;> simp_all <;> tauto
  · intro e
    cases e <;> simp [StreamEvent.kind, specStreamKinds]

/-- C8 amended witness: the kind token is accepted by the client dispatch
because it is among the seven documented kinds. -/
theorem streaming_kinds_with_alias_example :
    clientHandles "token" = true :=
  (streaming_kinds_with_alias.1 "token").mpr (Or.inl (by decide))

end Chakra

namespace Chakra

/-- C1: with max_iterations 3 the loop never records a 4th iteration, and
with min_improvement 0.05 a synthetic step sequence where the score of
iteration 2 exceeds the score of iteration 1 by less than 0.05 terminates
after iteration 2. -/
theorem orchestrator_termination_bounds (steps : Nat → StepOutcome) (minImp : ℚ) :
    (runLoop ⟨3, minImp⟩ steps).length ≤ 3
    ∧ ((steps 2).score - (steps 1).score < 1/20 →
        runLoop ⟨3, 1/20⟩ steps
          = [iterationRecAt steps 1, iterationRecAt steps 2]) := by
  constructor
  · exact loopFrom_length_le steps minImp 3 1 none
  · intro h
    have e1 : runLoop ⟨3, 1/20⟩ steps
        = iterationRecAt steps 1
          :: loopFrom steps (1/20) 2 2 (some (iterationRecAt steps 1).score) :=
      loopFrom_succ_none steps (1/20) 2 1
    have h2 : (iterationRecAt steps 2).score - (iterationRecAt steps 1).score
        < 1/20 := h
    rw [e1, loopFrom_succ_plateau steps (1/20) 1 2
      (iterationRecAt steps 1).score h2]

/-- C1 witness: a concrete step sequence with scores 0.5 and then 0.51
records exactly iterations 1 and 2 and respects the bound of 3. -/
theorem orchestrator_termination_bounds_example :
    (stepsPlateau 2).score - (stepsPlateau 1).score < 1/20
    ∧ runLoop ⟨3, 1/20⟩ stepsPlateau
        = [iterationRecAt stepsPlateau 1, iterationRecAt stepsPlateau 2]
    ∧ (runLoop ⟨3, 1/20⟩ stepsPlateau).length ≤ 3 := by
  have h : (stepsPlateau 2).score - (stepsPlateau 1).score < 1/20 := by
    norm_num [stepsPlateau]
  exact ⟨h, (orchestrator_termination_bounds stepsPlateau (1/20)).2 h,
    (orchestrator_termination_bounds stepsPlateau (1/20)).1⟩

/-- C2: for every terminated execution with at least one iteration, the
Result carries the improved text and score of a recorded iteration whose
score bounds every recorded score, so the final solution and score are
those of the highest-scoring iteration rather than the last one. -/
theorem result_selects_best_iteration (task : String) (usedRag : Bool)
    (chunks : Option (List Chunk)) (iters : List IterationRec)
    (h : iters ≠ []) :
    ∃ r, r ∈ iters
      ∧ (assembleResult task usedRag chunks iters).final_solution = r.improved
      ∧ (assembleResult task usedRag chunks iters).final_score = r.score
      ∧ ∀ x ∈ iters, x.score ≤ r.score := by
  cases iters with
  | nil => exact absurd rfl h
  | cons a rs =>
    obtain ⟨hmem, hstart, hall⟩ := bestFold_spec rs a
    refine ⟨rs.foldl (fun u x => if u.score < x.score then x else u) a,
      ?_, ?_, ?_, ?_⟩
    · rcases hmem with h1 | h1
      · rw [h1]; exact List.mem_cons_self a rs
      · exact List.mem_cons_of_mem a h1
    · simp [assembleResult, bestIteration]
    · simp [assembleResult, bestIteration]
    · intro x hx
      rcases List.mem_cons.mp hx with rfl | hx
      · exact hstart
      · exact hall x hx

/-- C2 witness: for recorded scores 0.5, 0.8, 0.65 the Result carries the
solution and score of the iteration scoring 0.8, not the last one. -/
theorem result_selects_best_iteration_example :
    (assembleResult "t" false none exampleIterations).final_solution = "b"
    ∧ (assembleResult "t" false none exampleIterations).final_score = 4/5
    ∧ ∃ r, r ∈ exampleIterations
        ∧ (assembleResult "t" false none exampleIterations).final_solution
            = r.improved
        ∧ (assembleResult "t" false none exampleIterations).final_score
            = r.score
        ∧ ∀ x ∈ exampleIterations, x.score ≤ r.score := by
  refine ⟨?_, ?_, result_selects_best_iteration "t" false none
    exampleIterations (by simp [exampleIterations])⟩
  · norm_num [assembleResult, bestIteration, exampleIterations]
  · norm_num [assembleResult, bestIteration, exampleIterations]

/-- C4: for every scoring mode and every sub-scorer with values in the
unit interval, the returned dimension values lie in the unit interval, the
total equals the weighted sum of the dimensions clamped to the unit
interval, and the weight sets are the documented fixed ones: code mode
correctness 0.4, quality 0.3, completeness 0.3; grounded mode grounding
0.5, clarity 0.3, completeness 0.2. -/
theorem scorer_weighted_contract (mode : ScoreMode) (sub : String → ℚ)
    (h : ∀ n, 0 ≤ sub n ∧ sub n ≤ 1) :
    (∀ p ∈ (runScorer mode sub).dims, 0 ≤ p.2 ∧ p.2 ≤ 1)
    ∧ (runScorer mode sub).total
        = clamp01 (((modeWeights mode).map fun p => p.2 * sub p.1).sum)
    ∧ 0 ≤ (runScorer mode sub).total
    ∧ (runScorer mode sub).total ≤ 1
    ∧ modeWeights ScoreMode.code
        = [("correctness", 2/5), ("quality", 3/10), ("completeness", 3/10)]
    ∧ modeWeights ScoreMode.grounded
        = [("grounding", 1/2), ("clarity", 3/10), ("completeness", 1/5)] := by
  refine ⟨?_, rfl, ?_, ?_, rfl, rfl⟩
  · intro p hp
    simp only [runScorer, List.mem_map] at hp
    obtain ⟨q, _, rfl⟩ := hp
    exact h q.1
  · exact le_min (by norm_num) (le_max_left 0 _)
  · exact min_le_left 1 _

/-- C4 witness: the constant sub-scorer one half satisfies the hypothesis,
the code-mode total evaluates to one half, and the bounds apply. -/
theorem scorer_weighted_contract_example :
    (runScorer ScoreMode.code fun _ => 1/2).total = 1/2
    ∧ 0 ≤ (runScorer ScoreMode.code fun _ => 1/2).total
    ∧ (runScorer ScoreMode.code fun _ => 1/2).total ≤ 1 := by
  have h := scorer_weighted_contract ScoreMode.code (fun _ => 1/2)
    (fun n => by norm_num)
  exact ⟨by norm_num [runScorer, modeWeights, clamp01], h.2.2.1, h.2.2.2.1⟩

/-- C5: a query returns at most k results, all drawn from the indexed
chunk set, ranked by descending overlap score with ties broken by original
insertion order (the ranked entries are pairwise related by the ranking
order, hence have non-increasing scores), and an empty index or an index
with no nonzero overlap yields the empty sequence rather than an error. -/
theorem retriever_query_contract (index : List Chunk) (text : String)
    (k : Nat) :
    (queryChunks index text k).length ≤ k
    ∧ (∀ c ∈ queryChunks index text k, c ∈ index)
    ∧ List.Pairwise rankLE (queryRanked index text k)
    ∧ List.Pairwise (fun a b : Nat × Chunk × Nat => b.2.2 ≤ a.2.2)
        (queryRanked index text k)
    ∧ (index = [] → queryChunks index text k = [])
    ∧ ((∀ c ∈ index, overlapCount (wordSet text) c = 0) →
        queryChunks index text k = []) := by
  have hsorted : List.Pairwise rankLE (queryRanked index text k) :=
    List.Pairwise.sublist (List.take_sublist k _)
      (List.sorted_insertionSort rankLE (positiveScored index text))
  refine ⟨?_, ?_, hsorted, ?_, ?_, ?_⟩
  · simp only [queryChunks, List.length_map, queryRanked]
    exact List.length_take_le k _
  · intro c hc
    simp only [queryChunks, List.mem_map] at hc
    obtain ⟨e, he, rfl⟩ := hc
    have h1 : e ∈ List.insertionSort rankLE (positiveScored index text) :=
      List.mem_of_mem_take he
    have h2 : e ∈ positiveScored index text :=
      (List.mem_insertionSort rankLE).mp h1
    have h3 : e ∈ scoredIndex index text := List.mem_of_mem_filter h2
    simp only [scoredIndex, List.mem_map] at h3
    obtain ⟨p, hp, hpe⟩ := h3
    rw [← hpe]
    exact snd_mem_of_mem_enum hp
  · refine hsorted.imp ?_
    intro a b hab
    rcases hab with h1 | ⟨h1, _⟩
    · exact le_of_lt h1
    · exact h1.ge
  · intro h0
    subst h0
    simp [queryChunks, queryRanked, positiveScored, scoredIndex]
  · intro h0
    have hfil : positiveScored index text = [] := by
      rw [positiveScored, List.filter_eq_nil_iff]
      intro e he
      simp only [scoredIndex, List.mem_map] at he
      obtain ⟨p, hp, hpe⟩ := he
      rw [← hpe]
      simp [h0 p.2 (snd_mem_of_mem_enum hp)]
    simp [queryChunks, queryRanked, hfil]

/-- C5 witness: on a two-chunk index the query returns the single chunk of
maximal overlap, the length bound applies, and the empty index yields the
empty sequence. -/
theorem retriever_query_contract_example :
    queryChunks exampleIndex "a b" 1 = [⟨"a b", "doc", 1⟩]
    ∧ (queryChunks exampleIndex "a b" 1).length ≤ 1
    ∧ queryChunks ([] : List Chunk) "a" 2 = [] := by
  refine ⟨by decide, (retriever_query_contract exampleIndex "a b" 1).1,
    (retriever_query_contract ([] : List Chunk) "a" 2).2.2.2.2.1 rfl⟩

end Chakra
